import Mathlib

/-!
Verification development for the BookBrain-AI layout reconstruction and
hierarchical structuring engine.  The definitions below are shallow
embeddings of the Python source files (`step4_to_json.py`, `to_json.py`,
`classify_blocks.py`, `step3_classify_blocks.py`, `step1_column_extractor.py`,
`step3_figure_extractor.py`, `text_extractor.py`).  Python strings are
embedded as Lean `String`/`List Char`, floats as `ℚ`, dicts as structures,
and code that can raise an exception returns `Option`/`Except`.
-/

/-! ## Python string primitives -/

/-- The whitespace characters recognised by Python's `str.strip()` /
`str.split()` / the regex class `\s` (ASCII fragment). -/
def isPySpace (c : Char) : Bool :=
  decide (c = ' ' ∨ c = '\t' ∨ c = '\n' ∨ c = '\r' ∨ c = '\x0b' ∨ c = '\x0c')

/-- Python `str.strip()` on a character list. -/
def pyStrip (cs : List Char) : List Char :=
  ((cs.dropWhile isPySpace).reverse.dropWhile isPySpace).reverse

/-- Python `str.strip()` on a `String`. -/
def pyStripS (s : String) : String := ⟨pyStrip s.data⟩

/-- Python `str.upper()` (ASCII fragment, all source strings are ASCII). -/
def pyUpper (s : String) : String := ⟨s.data.map Char.toUpper⟩

/-- Helper for Python `str.split()`: accumulates the current (reversed)
token while scanning. -/
def pyTokensAux (cur : List Char) : List Char → List (List Char)
  | [] => if cur.isEmpty then [] else [cur.reverse]
  | c :: rest =>
    if isPySpace c then
      if cur.isEmpty then pyTokensAux [] rest
      else cur.reverse :: pyTokensAux [] rest
    else pyTokensAux (c :: cur) rest

/-- Python `str.split()` (split on whitespace runs, dropping empties). -/
def pyTokens (cs : List Char) : List (List Char) := pyTokensAux [] cs

/-- Python `s.split()[0]`; `none` models the `IndexError` raised when the
string contains no token. -/
def pyFirstToken (s : String) : Option String :=
  (pyTokens s.data).head?.map fun l => (⟨l⟩ : String)

/-- Python `s.startswith(pre)`. -/
def pyStartsWith (pre s : String) : Bool := pre.data.isPrefixOf s.data

/-- Python `needle in hay` on strings (substring containment). -/
def pyContains (needle : List Char) : List Char → Bool
  | [] => needle.isEmpty
  | c :: rest => needle.isPrefixOf (c :: rest) || pyContains needle rest

/-! ## The hierarchy builder of `step4_to_json.py` (`build_hierarchy`)

A classified item is a dict `{"type": ..., "value": ...}`. -/

structure Item where
  itype : String
  ivalue : String
deriving DecidableEq

/-- A subsection dict `{"id", "title", "content"}`. -/
structure Subsection' where
  sid : String
  title : String
  content : List String
deriving DecidableEq

/-- A section dict `{"id", "title", "content", "subsections"}`. -/
structure Section' where
  sid : String
  title : String
  content : List String
  subsections : List Subsection'
deriving DecidableEq

/-- The root dict produced by `build_hierarchy`.  `preamble = none` models
the `"preamble"` key being absent. -/
structure Root where
  chapter_title : String
  sections : List Section'
  exercises : List String
  preamble : Option (List String)
deriving DecidableEq

/-- The mutable state of `build_hierarchy`'s loop.  In Python `curr_sec`
and `curr_subsec` alias objects already appended to the tree, so the tree
is reassembled on demand: `completed` holds the closed sections, `currSec`
the open one, and `currSubsec` the open subsection.  `subAttached` records
whether `curr_subsec` was appended to `curr_sec["subsections"]` (it is not
when it was created while no section was open). -/
structure BState where
  completed : List Section'
  currSec : Option Section'
  currSubsec : Option Subsection'
  subAttached : Bool
  exercises : List String
  preamble : Option (List String)
  inExercises : Bool
deriving DecidableEq

/-- Fold the pending attached subsection into a section, mirroring the
in-place mutation of the aliased `curr_subsec` dict. -/
def closeSub (st : BState) (sec : Section') : Section' :=
  if st.subAttached then
    { sec with subsections := sec.subsections ++ st.currSubsec.toList }
  else sec

/-- Content placement (part 3 of both builders): innermost open scope,
else the `preamble` list (creating the key on first use). -/
def placeContent (st : BState) (v : String) : BState :=
  match st.currSubsec with
  | some sub => { st with currSubsec := some { sub with content := sub.content ++ [v] } }
  | none =>
    match st.currSec with
    | some sec => { st with currSec := some { sec with content := sec.content ++ [v] } }
    | none => { st with preamble := some (st.preamble.getD [] ++ [v]) }

/-- One iteration of the `for item in classified_items` loop of
`step4_to_json.build_hierarchy`.  `none` models the `IndexError` from
`ivalue.split()[0]` on a token-free heading value. -/
def stepS4 (st : BState) (it : Item) : Option BState :=
  if it.itype = "EXERCISE" ∨ st.inExercises then
    some { st with
      inExercises := st.inExercises || pyContains "EXERCISES".data (pyUpper it.ivalue).data,
      exercises := st.exercises ++ [it.ivalue] }
  else if it.itype = "HEADING" then
    match pyFirstToken it.ivalue with
    | none => none
    | some idTag =>
      let level := idTag.data.count '.'
      if level = 1 then
        some { st with
          completed := st.completed ++ (st.currSec.map (closeSub st)).toList,
          currSec := some ⟨idTag, it.ivalue, [], []⟩,
          currSubsec := none,
          subAttached := false }
      else if level = 2 then
        some { st with
          currSec := st.currSec.map (closeSub st),
          currSubsec := some ⟨idTag, it.ivalue, []⟩,
          subAttached := st.currSec.isSome }
      else some st
  else some (placeContent st it.ivalue)

/-- Run the loop of `step4_to_json.build_hierarchy` over a stream. -/
def runS4 (st : BState) : List Item → Option BState
  | [] => some st
  | it :: rest =>
    match stepS4 st it with
    | none => none
    | some st' => runS4 st' rest

/-- The initial loop state of both builders. -/
def initBState : BState := ⟨[], none, none, false, [], none, false⟩

/-- The section list of the finished tree (the open section, with its
pending subsection, is already inside `root["sections"]` in Python). -/
def finalSections (st : BState) : List Section' :=
  st.completed ++ (st.currSec.map (closeSub st)).toList

/-- Embeds `step4_to_json.build_hierarchy`. -/
def build_hierarchy_s4 (items : List Item) : Option Root :=
  (runS4 initBState items).map fun st =>
    { chapter_title := "SYSTEMS OF PARTICLES AND ROTATIONAL MOTION",
      sections := finalSections st,
      exercises := st.exercises,
      preamble := st.preamble }

/-! ## The hierarchy builder of `to_json.py` (`build_hierarchy`) -/

/-- One iteration of the `for block in classified_blocks` loop of
`to_json.build_hierarchy`.  A heading not starting with `"2."` is demoted
to a paragraph; a two-dot heading with no open section synthesizes the
placeholder section `{"id": "2.0", "title": "Intro"}`; headings with a dot
count other than 1 or 2 fall through to content placement. -/
def stepTJ (st : BState) (it : Item) : Option BState :=
  if it.itype = "EXERCISE" ∨ st.inExercises then
    some { st with
      inExercises := st.inExercises || pyContains "EXERCISES".data (pyUpper it.ivalue).data,
      exercises := st.exercises ++ [it.ivalue] }
  else if it.itype = "HEADING" ∧ pyStartsWith "2." it.ivalue then
    match pyFirstToken it.ivalue with
    | none => none
    | some sectionId =>
      let dots := sectionId.data.count '.'
      if dots = 1 then
        some { st with
          completed := st.completed ++ (st.currSec.map (closeSub st)).toList,
          currSec := some ⟨sectionId, it.ivalue, [], []⟩,
          currSubsec := none,
          subAttached := false }
      else if dots = 2 then
        match st.currSec with
        | some _ =>
          some { st with
            currSec := st.currSec.map (closeSub st),
            currSubsec := some ⟨sectionId, it.ivalue, []⟩,
            subAttached := true }
        | none =>
          some { st with
            currSec := some ⟨"2.0", "Intro", [], []⟩,
            currSubsec := some ⟨sectionId, it.ivalue, []⟩,
            subAttached := true }
      else some (placeContent st it.ivalue)
  else some (placeContent st it.ivalue)

/-- Run the loop of `to_json.build_hierarchy` over a stream. -/
def runTJ (st : BState) : List Item → Option BState
  | [] => some st
  | it :: rest =>
    match stepTJ st it with
    | none => none
    | some st' => runTJ st' rest

/-- Embeds `to_json.build_hierarchy`. -/
def build_hierarchy_tj (items : List Item) : Option Root :=
  (runTJ initBState items).map fun st =>
    { chapter_title := "STRUCTURE OF ATOM",
      sections := finalSections st,
      exercises := st.exercises,
      preamble := st.preamble }

/-! ## Regex embeddings

Each regex from the source is embedded as a decidable scanner.  The
patterns are anchored (`re.match`) or searching (`re.search`) exactly as
in the code; greedy `\d+`/`\s*` munching is exact because backtracking a
digit or whitespace run can never enable the next literal to match. -/

/-- Scanner for `\s+[A-Z]` : at least one whitespace character, then an ASCII
uppercase letter. -/
def spaceThenUpper : List Char → Bool
  | [] => false
  | c :: rest =>
    isPySpace c &&
      match rest.dropWhile isPySpace with
      | d :: _ => d.isUpper
      | [] => false

/-- Embeds `re.match` of `config.RULES["HEADING_PATTERN"]`, the regex
`^\d+\.\d+(?:\.\d+)?\s+[A-Z]`. -/
def headingMatch (s : String) : Bool :=
  let p1 := s.data.span Char.isDigit
  !p1.1.isEmpty &&
    match p1.2 with
    | '.' :: r2 =>
      let p2 := r2.span Char.isDigit
      !p2.1.isEmpty &&
        (spaceThenUpper p2.2 ||
          match p2.2 with
          | '.' :: r4 =>
            let p3 := r4.span Char.isDigit
            !p3.1.isEmpty && spaceThenUpper p3.2
          | _ => false)
    | _ => false

/-- Scanner for `\s*\d+\.\d+` : optional whitespace, then a dotted numeral. -/
def spacedDottedNumber (cs : List Char) : Bool :=
  let r := cs.dropWhile isPySpace
  let p1 := r.span Char.isDigit
  !p1.1.isEmpty &&
    match p1.2 with
    | '.' :: r2 => !(r2.takeWhile Char.isDigit).isEmpty
    | _ => false

/-- Case-insensitive literal prefix test: the pattern is given in
lowercase and compared against the lowercased input prefix. -/
def ciPre (pat : List Char) (cs : List Char) : Bool :=
  (cs.take pat.length).map Char.toLower = pat

/-- Embeds `re.match` of `config.RULES["FIGURE_PATTERN"]`, the regex
`(?:Fig\.|Figure)\s*(\d+\.\d+)` with `re.I`.  The two literal
alternatives disagree on their fourth character, so trying them
independently is exact. -/
def figureMatch (s : String) : Bool :=
  (ciPre "fig.".data s.data && spacedDottedNumber (s.data.drop 4)) ||
    (ciPre "figure".data s.data && spacedDottedNumber (s.data.drop 6))

/-! ## The step-3 block classifier (`step3_classify_blocks.classify_and_clean`)

The per-page `while i < len(ordered_blocks)` loop (lines 94–122) consumes
the ordered blocks: a text block is a list of span texts, a diagram
marker carries its `[IMAGE: ...]` value. -/

inductive OBlock where
  | text (spans : List String)
  | diagram (value : String)
deriving DecidableEq

/-- Embeds `" ".join(s["text"] for l in item["lines"] for s in l["spans"]).strip()`. -/
def blockText (spans : List String) : String :=
  pyStripS (String.intercalate " " spans)

/-- The classification loop of `classify_and_clean` (lines 94–122):
empty/`Reprint` text is skipped, heading-pattern text is emitted as
`HEADING`, other text as `CONTENT`; a diagram marker is emitted as
`CONTENT` with a look-ahead that also consumes a following
figure-caption text block. -/
def processBlocks : List OBlock → List Item
  | [] => []
  | .text spans :: rest =>
    let t := blockText spans
    if t = "" || pyContains "Reprint".data t.data then processBlocks rest
    else if headingMatch t then ⟨"HEADING", t⟩ :: processBlocks rest
    else ⟨"CONTENT", t⟩ :: processBlocks rest
  | .diagram v :: [] => [⟨"CONTENT", v⟩]
  | .diagram v :: .diagram w :: rest =>
    ⟨"CONTENT", v⟩ :: processBlocks (.diagram w :: rest)
  | .diagram v :: .text spans :: rest =>
    let nt := blockText spans
    if figureMatch nt then
      ⟨"CONTENT", v⟩ :: ⟨"CONTENT", nt⟩ :: processBlocks rest
    else
      ⟨"CONTENT", v⟩ :: processBlocks (.text spans :: rest)

/-! ## The column partitioner of `classify_blocks.classify_and_clean`

Lines 44–51: blocks (PyMuPDF `get_text("blocks")` tuples) are assigned to
the left column when `x0 < mid_x`, else to the right column, and
`ordered_blocks = sorted(left_col, key=y0) + sorted(right_col, key=y0)`.
Python's sort is stable, and a stable sort's output is uniquely
determined by the key order, so `List.insertionSort` (also stable) embeds
it exactly. -/

structure TBlock where
  x0 : ℚ
  y0 : ℚ
  x1 : ℚ
  y1 : ℚ
  text : String
deriving DecidableEq

/-- The sort key relation `key=lambda x: x[1]` (ascending `y0`). -/
def yLE (a b : TBlock) : Prop := a.y0 ≤ b.y0

instance : DecidableRel yLE := fun a b => inferInstanceAs (Decidable (a.y0 ≤ b.y0))

instance : IsTotal TBlock yLE := ⟨fun a b => le_total a.y0 b.y0⟩

instance : IsTrans TBlock yLE := ⟨fun _ _ _ => le_trans⟩

/-- Lines 44–51 of `classify_blocks.py`: partition by `x0 < mid_x`, sort
each column by ascending `y0`, concatenate left then right. -/
def ordered_blocks (bs : List TBlock) (midX : ℚ) : List TBlock :=
  (bs.filter fun b => decide (b.x0 < midX)).insertionSort yLE ++
    (bs.filter fun b => !decide (b.x0 < midX)).insertionSort yLE

/-! ## The noise filter of `text_extractor.py` (`is_noise`, lines 12–39) -/

/-- Embeds `re.match(r'^\(?[a-zA-Z]\)?$', text)`: a single ASCII letter with
optional surrounding parentheses, matching the whole string. -/
def singleLetterParen : List Char → Bool
  | [c] => c.isAlpha
  | ['(', c] => c.isAlpha
  | [c, ')'] => c.isAlpha
  | ['(', c, ')'] => c.isAlpha
  | _ => false

/-- Tests whether `re.findall(r'6\.\d+', text)` is non-empty: some occurrence of `6`,
`.`, digit. -/
def hasSixDot : List Char → Bool
  | [] => false
  | c :: rest =>
    (decide (c = '6') &&
      match rest with
      | '.' :: d :: _ => d.isDigit
      | _ => false) || hasSixDot rest

/-- Embeds `text_extractor.FinalCleanExtractor.is_noise`.  The symbol-ratio test
`sum(not c.isalnum())/len(text) > 0.6` is embedded exactly as
`5 * count > 3 * len` (`0.6 = 3/5`; the float comparison agrees on all
realistic lengths). -/
def is_noise (s : String) (width : ℚ) : Bool :=
  let t := pyStrip s.data
  if t.isEmpty then true
  else if t.length < 4 then true
  else if singleLetterParen t then true
  else if 5 * (t.countP fun c => !c.isAlphanum) > 3 * t.length then true
  else if width < 100 then true
  else if hasSixDot t && (pyTokens t).length < 6 then true
  else false

/-- The commented-out `is_noise` of `step1_column_extractor.py`
(lines 364–382, `ProductionColumnExtractor`). -/
def is_noiseP (s : String) : Bool :=
  let t := pyStrip s.data
  if t.isEmpty then true
  else if singleLetterParen t then true
  else if !(t.any fun c => c.isAlpha) && t.length < 10 then true
  else if t.length < 3 then true
  else false

/-- A raw PyMuPDF `get_text("blocks")` tuple `(x0, y0, x1, y1, text, no)`. -/
structure RawB where
  x0 : ℚ
  y0 : ℚ
  x1 : ℚ
  y1 : ℚ
  text : String
deriving DecidableEq

/-- A cleaned block dict `{"text", "x0", "y0"}`. -/
structure CleanB where
  text : String
  x0 : ℚ
  y0 : ℚ
deriving DecidableEq

/-- The filtering loop of `text_extractor.extract_page_blocks`
(lines 78–95): drop header/footer blocks (`y0 < 120` or `y0 > 750`,
`config.HEADER_CUTOFF`/`FOOTER_CUTOFF`), strip the text, drop noise,
keep `{"text", "x0", "y0"}`. -/
def clean_blocks (rbs : List RawB) : List CleanB :=
  rbs.filterMap fun b =>
    if b.y0 < 120 ∨ b.y0 > 750 then none
    else if is_noise (pyStripS b.text) (b.x1 - b.x0) then none
    else some ⟨pyStripS b.text, b.x0, b.y0⟩

/-! ## The block merger of `step1_column_extractor.py`
(`ProductionColumnExtractor`, lines 292–512)

A block dict `{"type", "content", "x0", "y0", "x1", "centroid_x"}`. -/

structure PBlock where
  btype : String
  content : String
  x0 : ℚ
  y0 : ℚ
  x1 : ℚ
  centroid_x : ℚ
deriving DecidableEq

/-- The characters of the regex class `[=+\-×*/^∑∆τ∫√()]` counted by
`is_math_block`. -/
def mathSymbols : List Char :=
  ['=', '+', '-', '×', '*', '/', '^', '∑', '∆', 'τ', '∫', '√', '(', ')']

/-- Python `\w` (ASCII fragment): letters, digits, underscore. -/
def isWordChar (c : Char) : Bool := c.isAlpha || c.isDigit || decide (c = '_')

/-- Scanner for `\s*=` : optional whitespace then a literal `=` (the trailing `\s*`
of the pattern always matches). -/
def thenEquals (rest : List Char) : Bool :=
  match rest.dropWhile isPySpace with
  | '=' :: _ => true
  | _ => false

/-- Scanner for `re.search(r'\b[a-zA-Z]\s*=\s*', text)`: some ASCII
letter at a word boundary followed by optional whitespace and `=`. -/
def varAssignAux (prev : Option Char) : List Char → Bool
  | [] => false
  | c :: rest =>
    (c.isAlpha &&
        (match prev with
         | none => true
         | some p => !isWordChar p) &&
        thenEquals rest) ||
      varAssignAux (some c) rest

/-- Tests whether `re.search(r'\b[a-zA-Z]\s*=\s*', text)` is a hit. -/
def hasVarAssign (cs : List Char) : Bool := varAssignAux none cs

/-- Embeds `ProductionColumnExtractor.is_math_block` (lines 300–321): strip,
then math-symbol ratio `> 0.25` (embedded exactly as `4 * count > len`),
or a variable-assignment pattern, or a `∑`/`∫`. -/
def is_math_block (s : String) : Bool :=
  let t := pyStrip s.data
  if t.isEmpty then false
  else
    (4 * (t.countP fun c => decide (c ∈ mathSymbols)) > t.length) ||
      hasVarAssign t ||
      (t.any fun c => decide (c = '∑' ∨ c = '∫'))

/-- The guard `current["type"] == "text" and self.is_math_block(...)`. -/
def isMB (b : PBlock) : Bool := decide (b.btype = "text") && is_math_block b.content

/-- The inner `while` of `merge_vertical_math` (lines 335–342): absorb
consecutive math-like text blocks whose `y0` is within the threshold of
the previously examined block's `y0`; returns the combined content and
the number of blocks absorbed. -/
def mvAbsorb (acc : String) (prevY : ℚ) : List PBlock → String × ℕ
  | [] => (acc, 0)
  | c :: rest =>
    if isMB c && decide (|c.y0 - prevY| < 12) then
      let p := mvAbsorb (acc ++ " " ++ c.content) c.y0 rest
      (p.1, p.2 + 1)
    else (acc, 0)

/-- The outer `while i < len(blocks)` scan of `merge_vertical_math`,
driven by a fuel argument (the list length suffices, see
`mvmGo_fuel_irrel`); fuel keeps the recursion structural so that the
kernel can evaluate it. -/
def mvmGo : ℕ → List PBlock → List PBlock
  | _, [] => []
  | 0, b :: rest => b :: rest
  | fuel + 1, b :: rest =>
    if isMB b then
      let p := mvAbsorb b.content b.y0 rest
      ⟨"text", p.1, b.x0, b.y0, b.x1, b.centroid_x⟩ :: mvmGo fuel (rest.drop p.2)
    else b :: mvmGo fuel rest

/-- Embeds `ProductionColumnExtractor.merge_vertical_math` (lines 323–358) with
the default `y_threshold=12`: a forward scan that replaces each maximal
chain of math-like text blocks by one block carrying the concatenated
content and the first block's geometry. -/
def merge_vertical_math (l : List PBlock) : List PBlock := mvmGo l.length l

/-- The sort relation of `order_by_columns` (ascending `y0`); also the
ordering under which a block stream is "vertically sorted". -/
def pyLE (a b : PBlock) : Prop := a.y0 ≤ b.y0

/-- A block sequence whose `y0` coordinates are non-decreasing (each
single sorted column is such a sequence; the concatenation of two
columns generally is not, since `y0` restarts at the column break). -/
def SortedY (l : List PBlock) : Prop := l.Chain' pyLE

instance : DecidableRel pyLE := fun a b => inferInstanceAs (Decidable (a.y0 ≤ b.y0))

instance : IsTotal PBlock pyLE := ⟨fun a b => le_total a.y0 b.y0⟩

instance : IsTrans PBlock pyLE := ⟨fun _ _ _ => le_trans⟩

instance (l : List PBlock) : Decidable (SortedY l) :=
  decidable_of_iff (List.Pairwise pyLE l) List.chain'_iff_pairwise.symm

def order_by_columns (bs : List PBlock) (pageWidth : ℚ) : List PBlock :=
  let splitX := pageWidth / 2
  (bs.filter fun b => decide (b.centroid_x < splitX)).insertionSort pyLE ++
    (bs.filter fun b => !decide (b.centroid_x < splitX)).insertionSort pyLE

/-! ## The figure extractor of `step3_figure_extractor.py`
(`NCERTFigureExtractor`) -/

/-- A try at `self.fig_pattern` — `Fig\.\s*(\d+)\.(\d+)(\([a-z]\))?`
with `re.IGNORECASE` — anchored at the current position; returns the
three groups (chapter digits, figure digits, optional `(x)` group).
With `re.I`, `[a-z]` also matches uppercase letters. -/
def figMatchAt : List Char → Option (List Char × List Char × Option (List Char))
  | f :: i :: g :: '.' :: rest =>
    if f.toLower = 'f' ∧ i.toLower = 'i' ∧ g.toLower = 'g' then
      let r1 := rest.dropWhile isPySpace
      let p1 := r1.span Char.isDigit
      if p1.1.isEmpty then none
      else
        match p1.2 with
        | '.' :: r3 =>
          let p2 := r3.span Char.isDigit
          if p2.1.isEmpty then none
          else
            match p2.2 with
            | '(' :: c :: ')' :: _ =>
              if c.isAlpha then some (p1.1, p2.1, some ['(', c, ')'])
              else some (p1.1, p2.1, none)
            | _ => some (p1.1, p2.1, none)
        | _ => none
    else none
  | _ => none

/-- Embeds `self.fig_pattern.search(full_line)`: the leftmost match. -/
def figSearchAux : List Char → Option (List Char × List Char × Option (List Char))
  | [] => none
  | c :: rest =>
    match figMatchAt (c :: rest) with
    | some m => some m
    | none => figSearchAux rest

def figSearch (s : String) : Option (List Char × List Char × Option (List Char)) :=
  figSearchAux s.data

/-- Embeds `NCERTFigureExtractor.build_filename` (lines 25–34): the sub group
has its parentheses removed by `replace("(", "").replace(")", "")`. -/
def build_filename (chapter fig : List Char) (sub : Option (List Char)) : String :=
  match sub with
  | some g =>
    "fig_" ++ (⟨chapter⟩ : String) ++ "_" ++ (⟨fig⟩ : String) ++ "_" ++
      (⟨g.filter fun c => decide (c ≠ '(' ∧ c ≠ ')')⟩ : String) ++ ".png"
  | none => "fig_" ++ (⟨chapter⟩ : String) ++ "_" ++ (⟨fig⟩ : String) ++ ".png"

/-- The image basename saved for a caption line (match, then
`build_filename`). -/
def filenameOfCaption (s : String) : Option String :=
  (figSearch s).map fun m => build_filename m.1 m.2.1 m.2.2

/-- The rectangle rasterized for a caption whose first span starts at
height `y0` (lines 69–77 and 96–104):
`fitz.Rect(0, max(0, y0 - 450), page.rect.width, y0 - 5)`. -/
structure PRect where
  rx0 : ℚ
  ry0 : ℚ
  rx1 : ℚ
  ry1 : ℚ
deriving DecidableEq

def captionImageRect (pageWidth y0 : ℚ) : PRect :=
  ⟨0, max 0 (y0 - 450), pageWidth, y0 - 5⟩

/-- One scanned line of `extract_figures` together with the outcomes of
its two `page.get_pixmap` calls (the rasterizer is an external oracle;
`ok1` is the unguarded call at line 79, `ok2` the guarded call at
line 107). -/
structure LineEv where
  txt : String
  ok1 : Bool
  ok2 : Bool
deriving DecidableEq

/-- The per-line body of `NCERTFigureExtractor.extract_figures`
(lines 51–115) folded over the document's lines, tracking
`total_figures`.  A non-matching line is skipped; for a matching line the
first rasterization (line 79) is outside any `try`, so its failure is an
uncaught exception (`Except.error`) that aborts the run; the second
rasterization (lines 106–115) is wrapped in `try/except`, so its failure
only skips the counter increment. -/
def extractFiguresGo (total : ℕ) : List LineEv → Except String ℕ
  | [] => .ok total
  | e :: rest =>
    if (figSearch e.txt).isSome then
      if e.ok1 then
        if e.ok2 then extractFiguresGo (total + 1) rest
        else extractFiguresGo total rest
      else .error "get_pixmap raised"
    else extractFiguresGo total rest

/-- Embeds `NCERTFigureExtractor.extract_figures`, returning the final
`total_figures` count or the uncaught exception. -/
def extract_figures (evs : List LineEv) : Except String ℕ :=
  extractFiguresGo 0 evs

/-! ## Concrete blocks used as test inputs

Three math-like text blocks: `exMathA`/`exMathB` end a left column
(`centroid_x = 75 < 300`), `exMathC` opens the right column
(`centroid_x = 425`) near the page bottom, so the column-ordered stream
is `[exMathA, exMathB, exMathC]` with `y0` falling from 700 to 685 at the
column break. -/

def exMathA : PBlock := ⟨"text", "x = 1", 50, 690, 100, 75⟩

def exMathB : PBlock := ⟨"text", "y = 2", 50, 700, 100, 75⟩

def exMathC : PBlock := ⟨"text", "z = 3", 400, 685, 450, 425⟩

/-- A page's raw blocks for testing the column partitioner: one right
block (`x0 = 400`) with the smallest `y0`, and two left blocks out of
vertical order. -/
def colBlocks : List TBlock :=
  [⟨400, 5, 450, 20, "R1"⟩, ⟨10, 50, 60, 70, "L1"⟩, ⟨20, 7, 80, 30, "L2"⟩]

/-! # Theorems

## Shared lemmas about `merge_vertical_math` -/

theorem mvAbsorb_nil (acc : String) (p : ℚ) : mvAbsorb acc p [] = (acc, 0) := rfl

theorem mvAbsorb_cons_t {c : PBlock} {p : ℚ} (acc : String) {rest : List PBlock}
    (h : (isMB c && decide (|c.y0 - p| < 12)) = true) :
    mvAbsorb acc p (c :: rest) =
      ((mvAbsorb (acc ++ " " ++ c.content) c.y0 rest).1,
        (mvAbsorb (acc ++ " " ++ c.content) c.y0 rest).2 + 1) := by
  simp [mvAbsorb, h]

theorem mvAbsorb_cons_f {c : PBlock} {p : ℚ} (acc : String) {rest : List PBlock}
    (h : (isMB c && decide (|c.y0 - p| < 12)) = false) :
    mvAbsorb acc p (c :: rest) = (acc, 0) := by
  simp [mvAbsorb, h]

theorem mvAbsorb_snd_le (acc : String) (p : ℚ) (l : List PBlock) :
    (mvAbsorb acc p l).2 ≤ l.length := by
  induction l generalizing acc p with
  | nil => simp [mvAbsorb]
  | cons c rest ih =>
    by_cases h : (isMB c && decide (|c.y0 - p| < 12)) = true
    · rw [mvAbsorb_cons_t acc h]
      simpa using ih (acc ++ " " ++ c.content) c.y0
    · rw [mvAbsorb_cons_f acc (Bool.not_eq_true _ ▸ h)]
      simp

theorem mvmGo_nil (f : ℕ) : mvmGo f [] = [] := by cases f <;> rfl

theorem mvmGo_fuel_irrel : ∀ f1 f2 : ℕ, ∀ l : List PBlock,
    l.length ≤ f1 → l.length ≤ f2 → mvmGo f1 l = mvmGo f2 l := by
  intro f1
  induction f1 with
  | zero =>
    intro f2 l h1 _
    rw [List.length_eq_zero.mp (Nat.le_zero.mp h1), mvmGo_nil, mvmGo_nil]
  | succ f1' ih =>
    intro f2 l h1 h2
    cases l with
    | nil => rw [mvmGo_nil, mvmGo_nil]
    | cons b rest =>
      cases f2 with
      | zero => simp at h2
      | succ f2' =>
        simp only [List.length_cons] at h1 h2
        have h1r : rest.length ≤ f1' := by omega
        have h2r : rest.length ≤ f2' := by omega
        simp only [mvmGo]
        by_cases hb : isMB b = true
        · simp only [hb, if_true]
          have hd : (rest.drop (mvAbsorb b.content b.y0 rest).2).length ≤ rest.length := by
            simp [List.length_drop]
          rw [ih f2' _ (le_trans hd h1r) (le_trans hd h2r)]
        · simp only [Bool.not_eq_true] at hb
          simp only [hb, Bool.false_eq_true, if_false]
          rw [ih f2' rest h1r h2r]

theorem mvm_nil : merge_vertical_math [] = [] := rfl

theorem mvm_cons_math {b : PBlock} {rest : List PBlock} (h : isMB b = true) :
    merge_vertical_math (b :: rest) =
      ⟨"text", (mvAbsorb b.content b.y0 rest).1, b.x0, b.y0, b.x1, b.centroid_x⟩ ::
        merge_vertical_math (rest.drop (mvAbsorb b.content b.y0 rest).2) := by
  show mvmGo (b :: rest).length (b :: rest) = _
  simp only [List.length_cons, mvmGo, h, if_true]
  rw [mvmGo_fuel_irrel rest.length (rest.drop (mvAbsorb b.content b.y0 rest).2).length _
    (by simp [List.length_drop]) le_rfl]
  rfl

theorem mvm_cons_other {b : PBlock} {rest : List PBlock} (h : isMB b = false) :
    merge_vertical_math (b :: rest) = b :: merge_vertical_math rest := by
  show mvmGo (b :: rest).length (b :: rest) = _
  simp only [List.length_cons, mvmGo, h, Bool.false_eq_true, if_false]
  rfl

theorem sortedY_tail {b : PBlock} {rest : List PBlock} (h : SortedY (b :: rest)) :
    SortedY rest := List.Chain'.tail h

theorem sortedY_drop {l : List PBlock} (k : ℕ) (h : SortedY l) : SortedY (l.drop k) :=
  List.Chain'.sublist h (List.drop_sublist k l)

/-- Where the inner absorption loop of `merge_vertical_math` stops on a
vertically sorted tail: the first unabsorbed block, if math-like, lies at
least the threshold (12pt) below the reference `y0`. -/
theorem mvAbsorb_stop : ∀ (l : List PBlock) (acc : String) (p : ℚ),
    l.Chain' pyLE → (∀ g ∈ l.head?, p ≤ g.y0) →
    ∀ g : PBlock, (l.drop (mvAbsorb acc p l).2).head? = some g →
    isMB g = true → p + 12 ≤ g.y0 := by
  intro l
  induction l with
  | nil => intro acc p _ _ g hg; simp [mvAbsorb] at hg
  | cons c rest ih =>
    intro acc p hch hp g hg hmb
    have hpc : p ≤ c.y0 := hp c (by simp)
    by_cases h : (isMB c && decide (|c.y0 - p| < 12)) = true
    · rw [mvAbsorb_cons_t acc h] at hg
      simp only [List.drop_succ_cons] at hg
      have hch' : rest.Chain' pyLE := List.Chain'.tail hch
      have hp' : ∀ g ∈ rest.head?, c.y0 ≤ g.y0 := (List.chain'_cons'.mp hch).1
      have := ih (acc ++ " " ++ c.content) c.y0 hch' hp' g hg hmb
      linarith
    · rw [mvAbsorb_cons_f acc (Bool.not_eq_true _ ▸ h)] at hg
      simp only [List.drop_zero, List.head?_cons, Option.some.injEq] at hg
      have hgc : g = c := hg.symm
      subst hgc
      have hdec : decide (|g.y0 - p| < 12) = false := by
        cases hd : decide (|g.y0 - p| < 12)
        · rfl
        · exact absurd (by rw [hmb, hd]; rfl) h
      have habs : ¬ |g.y0 - p| < 12 := of_decide_eq_false hdec
      have heq : g.y0 - p = |g.y0 - p| := (abs_of_nonneg (by linarith)).symm
      have h12 : 12 ≤ |g.y0 - p| := not_lt.mp habs
      linarith

/-- The head of a merged non-empty list keeps the first block's `y0`, and
is math-like only if the first block was. -/
theorem mvm_head (g : PBlock) (t : List PBlock) :
    ∃ q m, merge_vertical_math (g :: t) = q :: m ∧ q.y0 = g.y0 ∧
      (isMB q = true → isMB g = true) := by
  by_cases hg : isMB g = true
  · exact ⟨_, _, mvm_cons_math hg, rfl, fun _ => hg⟩
  · refine ⟨g, merge_vertical_math t, mvm_cons_other (Bool.not_eq_true _ ▸ hg), rfl, ?_⟩
    intro hq
    exact absurd hq hg

/-- Idempotence of the vertical math-merge on vertically sorted input. -/
theorem mvm_idem_aux : ∀ n : ℕ, ∀ l : List PBlock, l.length ≤ n → SortedY l →
    merge_vertical_math (merge_vertical_math l) = merge_vertical_math l := by
  intro n
  induction n with
  | zero =>
    intro l h _
    rw [List.length_eq_zero.mp (Nat.le_zero.mp h)]
    rfl
  | succ n' ih =>
    intro l hlen hs
    cases l with
    | nil => rfl
    | cons b rest =>
      simp only [List.length_cons] at hlen
      have hrest : rest.length ≤ n' := by omega
      by_cases hb : isMB b = true
      · rw [mvm_cons_math hb]
        set k := (mvAbsorb b.content b.y0 rest).2 with hk
        set comb := (mvAbsorb b.content b.y0 rest).1 with hcomb
        set P : PBlock := ⟨"text", comb, b.x0, b.y0, b.x1, b.centroid_x⟩ with hP
        set rest' := rest.drop k with hrest'
        have hlen' : rest'.length ≤ n' :=
          le_trans (by simp [hrest', List.length_drop]) hrest
        have hs' : SortedY rest' := sortedY_drop k (sortedY_tail hs)
        have hidem : merge_vertical_math (merge_vertical_math rest') =
            merge_vertical_math rest' := ih rest' hlen' hs'
        by_cases hPm : isMB P = true
        · -- the merged head is still math-like: the second absorption
          -- stops immediately
          have habs : mvAbsorb P.content P.y0 (merge_vertical_math rest') =
              (P.content, 0) := by
            cases hr' : rest' with
            | nil => rfl
            | cons g t =>
              obtain ⟨q, m, hqm, hy, hmbi⟩ := mvm_head g t
              rw [hqm]
              by_cases hq : isMB q = true
              · have hgm : isMB g = true := hmbi hq
                have hgd : (rest.drop k).head? = some g := by
                  rw [← hrest', hr']; rfl
                have hstop : b.y0 + 12 ≤ g.y0 := by
                  refine mvAbsorb_stop rest b.content b.y0 (sortedY_tail hs) ?_ g hgd hgm
                  intro x hx
                  exact (List.chain'_cons'.mp hs).1 x hx
                have hcond : (isMB q && decide (|q.y0 - P.y0| < 12)) = false := by
                  have hnot : ¬ |q.y0 - P.y0| < 12 := by
                    have hPy : P.y0 = b.y0 := rfl
                    rw [hy, hPy]
                    have hnn : (0:ℚ) ≤ g.y0 - b.y0 := by linarith
                    rw [abs_of_nonneg hnn]
                    linarith
                  simp [hnot]
                exact mvAbsorb_cons_f P.content hcond
              · have hcond : (isMB q && decide (|q.y0 - P.y0| < 12)) = false := by
                  simp [(Bool.not_eq_true _ ▸ hq : isMB q = false)]
                exact mvAbsorb_cons_f P.content hcond
          rw [mvm_cons_math hPm, habs]
          simp only [List.drop_zero]
          rw [hidem]
        · rw [mvm_cons_other (Bool.not_eq_true _ ▸ hPm), hidem]
      · rw [mvm_cons_other (Bool.not_eq_true _ ▸ hb), mvm_cons_other (Bool.not_eq_true _ ▸ hb),
          ih rest hrest (sortedY_tail hs)]

/-! ## Claim C4: idempotence of the vertical math-merge -/

/-- C4 (counterexample): the claim "applying the vertical math-merge pass
twice to its own output yields the same sequence as applying it once, for
every ordered block sequence" is false.  The column-ordered stream
`[exMathA, exMathB, exMathC]` (left column `y0` 690, 700; right column
`y0` 685) merges the first two blocks in the first pass; in the second
pass the merged block carries the chain head's `y0` (690), which is now
within the 12pt threshold of 685, so the second pass merges further. -/
theorem claim_C4_counterexample :
    order_by_columns [exMathB, exMathA, exMathC] 600 = [exMathA, exMathB, exMathC] ∧
    merge_vertical_math (merge_vertical_math [exMathA, exMathB, exMathC]) ≠
      merge_vertical_math [exMathA, exMathB, exMathC] := by
  have h1 : isMB exMathA = true := by decide
  have h2 : isMB exMathB = true := by decide
  have h4 : isMB exMathC = true := by decide
  have hd1 : decide (|exMathB.y0 - exMathA.y0| < 12) = true := by
    norm_num [exMathA, exMathB]
  have hd2 : decide (|exMathC.y0 - exMathB.y0| < 12) = false := by
    norm_num [exMathB, exMathC]
  have e1 : merge_vertical_math [exMathA, exMathB, exMathC] =
      [⟨"text", "x = 1 y = 2", 50, 690, 100, 75⟩, exMathC] := by
    simp only [merge_vertical_math, List.length_cons, List.length_nil, mvmGo, mvAbsorb, h1, h2,
      h4, hd1, hd2, Bool.and_true, Bool.and_false, if_true, if_false, List.drop]
    decide
  have h5 : isMB ⟨"text", "x = 1 y = 2", 50, 690, 100, 75⟩ = true := by decide
  have hd3 : decide (|exMathC.y0 - (690 : ℚ)| < 12) = true := by norm_num [exMathC]
  have e2 : merge_vertical_math [⟨"text", "x = 1 y = 2", 50, 690, 100, 75⟩, exMathC] =
      [⟨"text", "x = 1 y = 2 z = 3", 50, 690, 100, 75⟩] := by
    simp only [merge_vertical_math, List.length_cons, List.length_nil, mvmGo, mvAbsorb,
      h4, h5, hd3, Bool.and_true, Bool.and_false, if_true, if_false, List.drop]
    decide
  refine ⟨?_, ?_⟩
  · norm_num [order_by_columns, exMathA, exMathB, exMathC, List.insertionSort,
      List.orderedInsert, pyLE]
  · rw [e1, e2]
    decide

/-- C4 (amended): the vertical math-merge pass is idempotent on every
block sequence whose `y0` coordinates are non-decreasing (in particular
on each single sorted column); on a general column-ordered sequence,
where `y0` drops at the column break, a second application can merge
further (see the counterexample). -/
theorem claim_C4_theorem (l : List PBlock) (h : SortedY l) :
    merge_vertical_math (merge_vertical_math l) = merge_vertical_math l :=
  mvm_idem_aux l.length l le_rfl h

/-- C4 witness: the amended theorem applied to a concrete sorted stream. -/
theorem claim_C4_witness :
    SortedY [exMathA, exMathB] ∧
    merge_vertical_math (merge_vertical_math [exMathA, exMathB]) =
      merge_vertical_math [exMathA, exMathB] :=
  ⟨by decide, claim_C4_theorem [exMathA, exMathB] (by decide)⟩

/-! ## Claim C3: reading order of the column partitioner -/

theorem ordered_blocks_pairwise (bs : List TBlock) (midX : ℚ) :
    (ordered_blocks bs midX).Pairwise (fun a b =>
      (b.x0 < midX → a.x0 < midX ∧ a.y0 ≤ b.y0) ∧
      (¬ a.x0 < midX → ¬ b.x0 < midX ∧ a.y0 ≤ b.y0)) := by
  rw [ordered_blocks]
  have hmemL : ∀ x ∈ (bs.filter fun b => decide (b.x0 < midX)).insertionSort yLE,
      x.x0 < midX := by
    intro x hx
    have := (List.mem_insertionSort yLE).mp hx
    have := (List.mem_filter.mp this).2
    exact of_decide_eq_true this
  have hmemR : ∀ x ∈ (bs.filter fun b => !decide (b.x0 < midX)).insertionSort yLE,
      ¬ x.x0 < midX := by
    intro x hx
    have := (List.mem_insertionSort yLE).mp hx
    have := (List.mem_filter.mp this).2
    simp only [Bool.not_eq_true'] at this
    exact of_decide_eq_false this
  refine List.pairwise_append.mpr ⟨?_, ?_, ?_⟩
  · have hs : List.Pairwise yLE ((bs.filter fun b => decide (b.x0 < midX)).insertionSort yLE) :=
      List.sorted_insertionSort yLE _
    refine List.Pairwise.imp_of_mem ?_ hs
    intro a b ha hb hab
    exact ⟨fun _ => ⟨hmemL a ha, hab⟩, fun hna => absurd (hmemL a ha) hna⟩
  · have hs : List.Pairwise yLE ((bs.filter fun b => !decide (b.x0 < midX)).insertionSort yLE) :=
      List.sorted_insertionSort yLE _
    refine List.Pairwise.imp_of_mem ?_ hs
    intro a b ha hb hab
    exact ⟨fun hbL => absurd hbL (hmemR b hb), fun _ => ⟨hmemR b hb, hab⟩⟩
  · intro a ha b hb
    exact ⟨fun hbL => absurd hbL (hmemR b hb), fun hna => absurd (hmemL a ha) hna⟩

/-- C3: in the partitioner's output, a later block that is LEFT
(`x0 < mid_x`) forces every earlier block to be LEFT with a `y0` no
larger, and an earlier block that is RIGHT forces every later block to
be RIGHT with a `y0` no smaller: all LEFT blocks come first, each column
sorted by ascending `y0`, regardless of cross-column `y0` comparisons. -/
theorem claim_C3_theorem (bs : List TBlock) (midX : ℚ) (i j : ℕ)
    (hi : i < (ordered_blocks bs midX).length) (hj : j < (ordered_blocks bs midX).length)
    (hij : i < j) :
    (((ordered_blocks bs midX).get ⟨j, hj⟩).x0 < midX →
      ((ordered_blocks bs midX).get ⟨i, hi⟩).x0 < midX ∧
        ((ordered_blocks bs midX).get ⟨i, hi⟩).y0 ≤ ((ordered_blocks bs midX).get ⟨j, hj⟩).y0) ∧
    (¬ ((ordered_blocks bs midX).get ⟨i, hi⟩).x0 < midX →
      ¬ ((ordered_blocks bs midX).get ⟨j, hj⟩).x0 < midX ∧
        ((ordered_blocks bs midX).get ⟨i, hi⟩).y0 ≤ ((ordered_blocks bs midX).get ⟨j, hj⟩).y0) :=
  List.pairwise_iff_get.mp (ordered_blocks_pairwise bs midX) ⟨i, hi⟩ ⟨j, hj⟩
    (Fin.mk_lt_mk.mpr hij)

/-- C3 witness: on `colBlocks` with `mid_x = 300` the output is
`[L2 (y0 = 7), L1 (y0 = 50), R1 (y0 = 5)]`; positions 0 and 1 are both
LEFT and vertically ordered. -/
theorem claim_C3_witness :
    ((ordered_blocks colBlocks 300).get ⟨0, by decide⟩).x0 < 300 ∧
      ((ordered_blocks colBlocks 300).get ⟨0, by decide⟩).y0 ≤
        ((ordered_blocks colBlocks 300).get ⟨1, by decide⟩).y0 :=
  (claim_C3_theorem colBlocks 300 0 1 (by decide) (by decide) (by decide)).1 (by decide)

/-! ## Claim C1: the exercise latch of the hierarchy builder -/

theorem runS4_cons (st st' : BState) (it : Item) (rest : List Item)
    (h : stepS4 st it = some st') : runS4 st (it :: rest) = runS4 st' rest := by
  rw [runS4, h]

theorem runS4_exercises_latch : ∀ (items : List Item) (st : BState), st.inExercises = true →
    runS4 st items = some { st with exercises := st.exercises ++ items.map Item.ivalue } := by
  intro items
  induction items with
  | nil => intro st _; simp [runS4]
  | cons it rest ih =>
    intro st h
    have hstep : stepS4 st it = some { st with
        inExercises := st.inExercises || pyContains "EXERCISES".data (pyUpper it.ivalue).data,
        exercises := st.exercises ++ [it.ivalue] } := by
      rw [stepS4, if_pos (Or.inr h)]
    rw [runS4_cons _ _ _ _ hstep, ih _ (by simp [h])]
    simp [h]

/-- C1 (amended): an item routed to the exercises branch sets the
one-way latch only when its uppercased value contains `"EXERCISES"`; an
EXERCISE-typed item is itself appended to the exercises list either way.
Once the latch is set, every subsequent item — whatever its type, even a
HEADING — is appended to the exercises list and the rest of the builder
state (sections, subsections, preamble) never changes again, until end
of document. -/
theorem claim_C1_theorem :
    (∀ (st : BState) (it : Item), it.itype = "EXERCISE" →
      pyContains "EXERCISES".data (pyUpper it.ivalue).data = true →
      stepS4 st it =
        some { st with inExercises := true, exercises := st.exercises ++ [it.ivalue] }) ∧
    (∀ (st : BState) (items : List Item), st.inExercises = true →
      runS4 st items = some { st with exercises := st.exercises ++ items.map Item.ivalue }) := by
  constructor
  · intro st it h1 h2
    rw [stepS4, if_pos (Or.inl h1), h2]
    simp
  · intro st items h
    exact runS4_exercises_latch items st h

/-- C1 (counterexample): an item classified EXERCISE whose value does not
contain the substring `"EXERCISES"` does not set the latch: the next
HEADING item opens a section instead of being appended to the exercises
list, refuting "once any item classifies as EXERCISE, every subsequent
item is appended to the exercises list and not to any section". -/
theorem claim_C1_counterexample :
    build_hierarchy_s4 [⟨"EXERCISE", "Problem 6.1: Compute the torque."⟩,
        ⟨"HEADING", "6.2 CENTRE OF MASS"⟩] =
      some ⟨"SYSTEMS OF PARTICLES AND ROTATIONAL MOTION",
        [⟨"6.2", "6.2 CENTRE OF MASS", [], []⟩],
        ["Problem 6.1: Compute the torque."], none⟩ := by
  decide

/-- C1 witness: the latch part of the amended theorem applied to a
latched state and a stream containing a would-be HEADING. -/
theorem claim_C1_witness :
    runS4 ⟨[], none, none, false, ["EXERCISES"], none, true⟩
        [⟨"HEADING", "6.9 SUMMARY"⟩, ⟨"CONTENT", "More problems."⟩] =
      some ⟨[], none, none, false, ["EXERCISES", "6.9 SUMMARY", "More problems."], none, true⟩ := by
  have h := claim_C1_theorem.2 ⟨[], none, none, false, ["EXERCISES"], none, true⟩
    [⟨"HEADING", "6.9 SUMMARY"⟩, ⟨"CONTENT", "More problems."⟩] rfl
  rw [h]
  decide

/-! ## Claim C9: the preamble list -/

theorem stepS4_preamble_cases (st : BState) (it : Item) (st' : BState)
    (h : stepS4 st it = some st') :
    st'.preamble = st.preamble ∨ ∃ l, st'.preamble = some (l ++ [it.ivalue]) := by
  by_cases h1 : (it.itype = "EXERCISE" ∨ st.inExercises)
  · rw [stepS4, if_pos h1] at h
    injection h with h
    subst h
    exact Or.inl rfl
  · rw [stepS4, if_neg h1] at h
    by_cases h2 : it.itype = "HEADING"
    · rw [if_pos h2] at h
      cases hpt : pyFirstToken it.ivalue with
      | none => rw [hpt] at h; cases h
      | some idTag =>
        rw [hpt] at h
        simp only at h
        by_cases hl1 : idTag.data.count '.' = 1
        · rw [if_pos hl1] at h
          injection h with h
          subst h
          exact Or.inl rfl
        · rw [if_neg hl1] at h
          by_cases hl2 : idTag.data.count '.' = 2
          · rw [if_pos hl2] at h
            injection h with h
            subst h
            exact Or.inl rfl
          · rw [if_neg hl2] at h
            injection h with h
            subst h
            exact Or.inl rfl
    · rw [if_neg h2] at h
      injection h with h
      subst h
      unfold placeContent
      cases hcs : st.currSubsec with
      | some sub => simp
      | none =>
        cases hsec : st.currSec with
        | some sec => simp
        | none => exact Or.inr ⟨st.preamble.getD [], rfl⟩

theorem runS4_preamble_ne : ∀ (items : List Item) (st st' : BState),
    runS4 st items = some st' → st.preamble ≠ some [] → st'.preamble ≠ some [] := by
  intro items
  induction items with
  | nil =>
    intro st st' h hp
    rw [runS4] at h
    injection h with h
    subst h
    exact hp
  | cons it rest ih =>
    intro st st' h hp
    cases hstep : stepS4 st it with
    | none => rw [runS4, hstep] at h; cases h
    | some st1 =>
      rw [runS4_cons _ _ _ _ hstep] at h
      refine ih st1 st' h ?_
      rcases stepS4_preamble_cases st it st1 hstep with heq | ⟨l, heq⟩
      · rw [heq]; exact hp
      · rw [heq]; simp

/-- C9 (amended): a content item is routed to the `preamble` list exactly
when neither a section nor a subsection is open (not merely "before the
first Section heading": an orphan two-dot heading opens a subsection that
captures subsequent content instead — see the counterexample); and the
`"preamble"` key, when present in the output, always holds a non-empty
list. -/
theorem claim_C9_theorem :
    (∀ (items : List Item) (root : Root), build_hierarchy_s4 items = some root →
      root.preamble ≠ some []) ∧
    (∀ (st : BState) (t v : String), st.inExercises = false → t ≠ "EXERCISE" → t ≠ "HEADING" →
      st.currSec = none → st.currSubsec = none →
      stepS4 st ⟨t, v⟩ = some { st with preamble := some (st.preamble.getD [] ++ [v]) }) := by
  constructor
  · intro items root h
    unfold build_hierarchy_s4 at h
    cases hrun : runS4 initBState items with
    | none => rw [hrun] at h; cases h
    | some st' =>
      rw [hrun] at h
      injection h with h
      subst h
      exact runS4_preamble_ne items initBState st' hrun (by simp [initBState])
  · intro st t v hex ht hh hsec hsub
    have h1 : ¬ ((Item.mk t v).itype = "EXERCISE" ∨ st.inExercises) := by
      rintro (hc | hc)
      · exact ht hc
      · rw [hex] at hc; exact Bool.false_ne_true hc
    rw [stepS4, if_neg h1, if_neg (fun hc => hh hc)]
    unfold placeContent
    rw [hsub, hsec]

/-- C9 (counterexample): the content item arrives before any *Section*
heading (only a Subsection heading precedes it), yet the output has no
`preamble` key at all — the item went into the orphan subsection and is
absent from the whole tree — refuting "content items arriving before the
first Section heading are collected in a preamble list". -/
theorem claim_C9_counterexample :
    build_hierarchy_s4 [⟨"HEADING", "6.3.1 Torque"⟩, ⟨"CONTENT", "Angular momentum text."⟩] =
      some ⟨"SYSTEMS OF PARTICLES AND ROTATIONAL MOTION", [], [], none⟩ := by
  decide

/-- C9 witness: both parts of the amended theorem at concrete inputs. -/
theorem claim_C9_witness :
    stepS4 ⟨[], none, none, false, [], none, false⟩ ⟨"CONTENT", "Intro text."⟩ =
      some ⟨[], none, none, false, [], some ["Intro text."], false⟩ := by
  have h := claim_C9_theorem.2 ⟨[], none, none, false, [], none, false⟩ "CONTENT" "Intro text."
    rfl (by decide) (by decide) rfl rfl
  rw [h]
  rfl

/-! ## Claim C2: the orphan-subsection placeholder -/

theorem pyTokensAux_nonspace {c : Char} (h : isPySpace c = false) (cur rest : List Char) :
    pyTokensAux cur (c :: rest) = pyTokensAux (c :: cur) rest := by
  simp [pyTokensAux, h]

theorem pyTokensAux_space_flush {c : Char} (h : isPySpace c = true) {cur : List Char}
    (hc : cur.isEmpty = false) (rest : List Char) :
    pyTokensAux cur (c :: rest) = cur.reverse :: pyTokensAux [] rest := by
  simp [pyTokensAux, h, hc]

theorem data_append_211 (t : String) :
    ("2.1.1 " ++ t).data = '2' :: '.' :: '1' :: '.' :: '1' :: ' ' :: t.data := by
  rw [String.data_append]
  rfl

theorem pyFirstToken_211 (t : String) : pyFirstToken ("2.1.1 " ++ t) = some "2.1.1" := by
  unfold pyFirstToken pyTokens
  rw [data_append_211, pyTokensAux_nonspace (by decide), pyTokensAux_nonspace (by decide),
    pyTokensAux_nonspace (by decide), pyTokensAux_nonspace (by decide),
    pyTokensAux_nonspace (by decide), pyTokensAux_space_flush (by decide) (by decide)]
  rfl

theorem pyStartsWith_211 (t : String) : pyStartsWith "2." ("2.1.1 " ++ t) = true := by
  show List.isPrefixOf ['2', '.'] ("2.1.1 " ++ t).data = true
  rw [data_append_211]
  simp [List.isPrefixOf]

theorem runTJ_cons (st st' : BState) (it : Item) (rest : List Item)
    (h : stepTJ st it = some st') : runTJ st (it :: rest) = runTJ st' rest := by
  rw [runTJ, h]

theorem runTJ_paragraphs : ∀ (cs : List String) (st : BState) (sub : Subsection'),
    st.inExercises = false → st.currSubsec = some sub →
    runTJ st (cs.map fun c => ⟨"PARAGRAPH", c⟩) =
      some { st with currSubsec := some { sub with content := sub.content ++ cs } } := by
  intro cs
  induction cs with
  | nil =>
    intro st sub h hsub
    simp only [List.map_nil, runTJ, List.append_nil]
    rw [← hsub]
  | cons c cs' ih =>
    intro st sub h hsub
    rw [List.map_cons]
    have hne1 : ("PARAGRAPH" : String) ≠ "EXERCISE" := by decide
    have hne2 : ("PARAGRAPH" : String) ≠ "HEADING" := by decide
    have hc1 : ¬ ((Item.mk "PARAGRAPH" c).itype = "EXERCISE" ∨ st.inExercises) := by
      rintro (hc | hc)
      · exact hne1 hc
      · rw [h] at hc; exact Bool.false_ne_true hc
    have hc2 : ¬ ((Item.mk "PARAGRAPH" c).itype = "HEADING" ∧
        pyStartsWith "2." (Item.mk "PARAGRAPH" c).ivalue) := by
      rintro ⟨hc, _⟩
      exact hne2 hc
    have hstep : stepTJ st ⟨"PARAGRAPH", c⟩ =
        some { st with currSubsec := some { sub with content := sub.content ++ [c] } } := by
      rw [stepTJ, if_neg hc1, if_neg hc2]
      unfold placeContent
      rw [hsub]
    rw [runTJ_cons _ _ _ _ hstep,
      ih _ ⟨sub.sid, sub.title, sub.content ++ [c]⟩ (by simp [h]) rfl]
    simp [List.append_assoc]

/-- C2 (counterexample): in `step4_to_json.build_hierarchy` a two-dot
HEADING arriving with no open Section does *not* synthesize a placeholder
Section — the subsection is created but never attached to the tree, so
both the heading and the content following it are absent from the output
(no sections, no exercises, no preamble key), refuting the claim for this
cited builder. -/
theorem claim_C2_counterexample :
    build_hierarchy_s4 [⟨"HEADING", "6.1.1 Vectors"⟩, ⟨"CONTENT", "Some text."⟩] =
      some ⟨"SYSTEMS OF PARTICLES AND ROTATIONAL MOTION", [], [], none⟩ := by
  decide

/-- C2 (amended): only `to_json.build_hierarchy` implements the
defensive default: a two-dot heading (`2.1.1 ...`) with no open Section
synthesizes the placeholder Section `{"id": "2.0", "title": "Intro"}`
holding the new Subsection, and every content item following the heading
lands in that Subsection — nothing is dropped.  (`step4_to_json.py`'s
variant instead drops the orphan subtree, see the counterexample.) -/
theorem claim_C2_theorem (t : String) (cs : List String) :
    build_hierarchy_tj (⟨"HEADING", "2.1.1 " ++ t⟩ :: cs.map fun c => ⟨"PARAGRAPH", c⟩) =
      some ⟨"STRUCTURE OF ATOM",
        [⟨"2.0", "Intro", [], [⟨"2.1.1", "2.1.1 " ++ t, cs⟩]⟩], [], none⟩ := by
  unfold build_hierarchy_tj
  have hne1 : ("HEADING" : String) ≠ "EXERCISE" := by decide
  have hc1 : ¬ ((Item.mk "HEADING" ("2.1.1 " ++ t)).itype = "EXERCISE" ∨
      initBState.inExercises) := by
    rintro (hc | hc)
    · exact hne1 hc
    · exact Bool.false_ne_true hc
  have hstep : stepTJ initBState ⟨"HEADING", "2.1.1 " ++ t⟩ =
      some ⟨[], some ⟨"2.0", "Intro", [], []⟩, some ⟨"2.1.1", "2.1.1 " ++ t, []⟩,
        true, [], none, false⟩ := by
    rw [stepTJ, if_neg hc1, if_pos ⟨rfl, pyStartsWith_211 t⟩, pyFirstToken_211]
    simp only
    rw [if_neg (by decide), if_pos (by decide)]
    rfl
  rw [runTJ_cons _ _ _ _ hstep,
    runTJ_paragraphs cs _ ⟨"2.1.1", "2.1.1 " ++ t, []⟩ rfl rfl]
  simp only [Option.map_some]
  rfl

/-! ## Claim C10: the step-3 classifier emits only HEADING and CONTENT -/

theorem processBlocks_types : ∀ (n : ℕ) (obs : List OBlock), obs.length ≤ n →
    ∀ it ∈ processBlocks obs, it.itype = "HEADING" ∨ it.itype = "CONTENT" := by
  intro n
  induction n with
  | zero =>
    intro obs h it hit
    rw [List.length_eq_zero.mp (Nat.le_zero.mp h)] at hit
    simp [processBlocks] at hit
  | succ n' ih =>
    intro obs h it hit
    cases obs with
    | nil => simp [processBlocks] at hit
    | cons b rest =>
      simp only [List.length_cons] at h
      cases b with
      | text spans =>
        rw [processBlocks] at hit
        by_cases h1 : blockText spans = "" ∨
            pyContains "Reprint".data (blockText spans).data = true
        · rw [if_pos (by simpa using h1)] at hit
          exact ih rest (by omega) it hit
        · rw [if_neg (by simpa using h1)] at hit
          by_cases h2 : headingMatch (blockText spans) = true
          · rw [if_pos h2] at hit
            rcases List.mem_cons.mp hit with rfl | hit'
            · exact Or.inl rfl
            · exact ih rest (by omega) it hit'
          · rw [if_neg h2] at hit
            rcases List.mem_cons.mp hit with rfl | hit'
            · exact Or.inr rfl
            · exact ih rest (by omega) it hit'
      | diagram v =>
        cases rest with
        | nil =>
          rw [processBlocks] at hit
          rcases List.mem_singleton.mp hit with rfl
          exact Or.inr rfl
        | cons b2 rest2 =>
          cases b2 with
          | diagram w =>
            rw [processBlocks] at hit
            rcases List.mem_cons.mp hit with rfl | hit'
            · exact Or.inr rfl
            · exact ih (.diagram w :: rest2) (by simp only [List.length_cons] at h ⊢; omega)
                it hit'
          | text spans =>
            rw [processBlocks] at hit
            by_cases h2 : figureMatch (blockText spans) = true
            · rw [if_pos h2] at hit
              rcases List.mem_cons.mp hit with rfl | hit'
              · exact Or.inr rfl
              · rcases List.mem_cons.mp hit' with rfl | hit''
                · exact Or.inr rfl
                · exact ih rest2 (by simp only [List.length_cons] at h ⊢; omega) it hit''
            · rw [if_neg h2] at hit
              rcases List.mem_cons.mp hit with rfl | hit'
              · exact Or.inr rfl
              · exact ih (.text spans :: rest2)
                  (by simp only [List.length_cons] at h ⊢; omega) it hit'

/-- C10: every item emitted by the step-3 classification loop carries
type `"HEADING"` or `"CONTENT"`; consequently its type is never
`"EXERCISE"`, so the exercises-branch condition of the step-4 hierarchy
builder (`item type is EXERCISE, or the latch is set`) is equivalent to
the text-based latch alone. -/
theorem claim_C10_theorem (obs : List OBlock) (it : Item) (h : it ∈ processBlocks obs) :
    (it.itype = "HEADING" ∨ it.itype = "CONTENT") ∧
    ∀ st : BState, (it.itype = "EXERCISE" ∨ st.inExercises = true) ↔ st.inExercises = true := by
  have h1 := processBlocks_types obs.length obs le_rfl it h
  refine ⟨h1, fun st => ⟨fun hor => ?_, Or.inr⟩⟩
  rcases hor with he | h2
  · rcases h1 with hh | hc
    · rw [hh] at he; exact absurd he (by decide)
    · rw [hc] at he; exact absurd he (by decide)
  · exact h2

/-- C10 witness: the theorem applied to a page with one heading text
block and one diagram marker. -/
theorem claim_C10_witness :
    ((Item.mk "HEADING" "6.1 INTRODUCTION").itype = "HEADING" ∨
      (Item.mk "HEADING" "6.1 INTRODUCTION").itype = "CONTENT") ∧
    ∀ st : BState, ((Item.mk "HEADING" "6.1 INTRODUCTION").itype = "EXERCISE" ∨
      st.inExercises = true) ↔ st.inExercises = true :=
  claim_C10_theorem [.text ["6.1", "INTRODUCTION"], .diagram "[IMAGE: img/fig_6_1.png]"]
    ⟨"HEADING", "6.1 INTRODUCTION"⟩ (by decide)

/-! ## Claim C8: noise classification and exclusion -/

theorem pyStrip_length_le (cs : List Char) : (pyStrip cs).length ≤ cs.length := by
  unfold pyStrip
  calc ((cs.dropWhile isPySpace).reverse.dropWhile isPySpace).reverse.length
      = ((cs.dropWhile isPySpace).reverse.dropWhile isPySpace).length := by
        rw [List.length_reverse]
    _ ≤ (cs.dropWhile isPySpace).reverse.length :=
        (List.dropWhile_sublist isPySpace).length_le
    _ = (cs.dropWhile isPySpace).length := by rw [List.length_reverse]
    _ ≤ cs.length := (List.dropWhile_sublist isPySpace).length_le

theorem is_noise_parenA (w : ℚ) : is_noise "(a)" w = true := rfl

theorem is_noise_empty (w : ℚ) : is_noise "" w = true := rfl

theorem is_noise_spaces (w : ℚ) : is_noise "   " w = true := rfl

theorem is_noise_short (s : String) (w : ℚ) (h : s.data.length = 2) :
    is_noise s w = true := by
  unfold is_noise
  have hlen : (pyStrip s.data).length ≤ 2 := le_trans (pyStrip_length_le s.data) (le_of_eq h)
  by_cases he : (pyStrip s.data).isEmpty
  · simp [he]
  · have h4 : (pyStrip s.data).length < 4 := by omega
    simp [he, h4]

theorem is_noiseP_short (s : String) (h : s.data.length = 2) : is_noiseP s = true := by
  unfold is_noiseP
  have hlen : (pyStrip s.data).length ≤ 2 := le_trans (pyStrip_length_le s.data) (le_of_eq h)
  by_cases he : (pyStrip s.data).isEmpty
  · simp [he]
  · by_cases hsl : singleLetterParen (pyStrip s.data) = true
    · simp [he, hsl]
    · by_cases hna : ((!(pyStrip s.data).any fun c => c.isAlpha) &&
          decide ((pyStrip s.data).length < 10)) = true
      · simp [he, hsl, hna]
      · have h3 : (pyStrip s.data).length < 3 := by omega
        simp [he, hsl, hna, h3]

theorem clean_blocks_not_noise (rbs : List RawB) (b : CleanB) (h : b ∈ clean_blocks rbs) :
    ∃ w : ℚ, is_noise b.text w = false := by
  unfold clean_blocks at h
  obtain ⟨raw, _, hf⟩ := List.mem_filterMap.mp h
  by_cases h1 : (raw.y0 < 120 ∨ raw.y0 > 750)
  · rw [if_pos h1] at hf; cases hf
  · rw [if_neg h1] at hf
    by_cases h2 : is_noise (pyStripS raw.text) (raw.x1 - raw.x0) = true
    · rw [if_pos h2] at hf; cases hf
    · rw [if_neg h2] at hf
      injection hf with hf
      refine ⟨raw.x1 - raw.x0, ?_⟩
      rw [← hf]
      exact Bool.not_eq_true _ ▸ h2

/-- C8: `"(a)"`, `""`, `"   "`, and every 2-character fragment are
classified as noise by both `is_noise` variants (for every block width),
and consequently no block with such text survives the cleaning loop of
`extract_page_blocks`. -/
theorem claim_C8_theorem :
    (∀ w : ℚ, is_noise "(a)" w = true) ∧
    (∀ w : ℚ, is_noise "" w = true) ∧
    (∀ w : ℚ, is_noise "   " w = true) ∧
    (∀ (s : String) (w : ℚ), s.data.length = 2 → is_noise s w = true) ∧
    (is_noiseP "(a)" = true ∧ is_noiseP "" = true ∧ is_noiseP "   " = true ∧
      ∀ s : String, s.data.length = 2 → is_noiseP s = true) ∧
    (∀ (rbs : List RawB) (b : CleanB), b ∈ clean_blocks rbs →
      b.text ≠ "(a)" ∧ b.text ≠ "" ∧ b.text ≠ "   " ∧ b.text.data.length ≠ 2) := by
  refine ⟨is_noise_parenA, is_noise_empty, is_noise_spaces, is_noise_short,
    ⟨rfl, rfl, rfl, is_noiseP_short⟩, ?_⟩
  intro rbs b hb
  obtain ⟨w, hw⟩ := clean_blocks_not_noise rbs b hb
  refine ⟨?_, ?_, ?_, ?_⟩
  · intro hc; rw [hc, is_noise_parenA] at hw; cases hw
  · intro hc; rw [hc, is_noise_empty] at hw; cases hw
  · intro hc; rw [hc, is_noise_spaces] at hw; cases hw
  · intro hc; rw [is_noise_short b.text w hc] at hw; cases hw

/-- C8 witness: the theorem's parts at concrete inputs. -/
theorem claim_C8_witness :
    is_noise "ab" 0 = true ∧ is_noiseP "ab" = true ∧
    ∀ b : CleanB, b ∈ clean_blocks [⟨0, 200, 0, 220, "(a)"⟩] → b.text ≠ "(a)" := by
  refine ⟨claim_C8_theorem.2.2.2.1 "ab" 0 rfl, claim_C8_theorem.2.2.2.2.1.2.2.2 "ab" rfl, ?_⟩
  intro b hb
  exact (claim_C8_theorem.2.2.2.2.2 [⟨0, 200, 0, 220, "(a)"⟩] b hb).1

/-! ## Claim C7: deterministic figure filenames -/

/-- C7: the saved basename is a function of the groups parsed from the
caption by `fig_pattern` — captions with the same parse always get the
same basename — and the two reference captions yield `fig_6_7.png` and
`fig_6_7_a.png`. -/
theorem claim_C7_theorem :
    filenameOfCaption "Fig. 6.7" = some "fig_6_7.png" ∧
    filenameOfCaption "Fig. 6.7(a)" = some "fig_6_7_a.png" ∧
    ∀ s t : String, figSearch s = figSearch t →
      filenameOfCaption s = filenameOfCaption t := by
  refine ⟨by decide, by decide, ?_⟩
  intro s t h
  unfold filenameOfCaption
  rw [h]

/-- C7 witness: two captions with the same parse get the same basename. -/
theorem claim_C7_witness :
    figSearch "See Fig. 6.7 below" = figSearch "Fig. 6.7" ∧
    filenameOfCaption "See Fig. 6.7 below" = filenameOfCaption "Fig. 6.7" :=
  ⟨by decide, claim_C7_theorem.2.2 "See Fig. 6.7 below" "Fig. 6.7" (by decide)⟩

/-! ## Claim C6: the rasterized figure rectangle -/

/-- C6 (counterexample): for a page of width 600 (split line at 300) and
a right-column caption (`x0 = 400`) whose top is at `y0 = 500`, the
rectangle actually rasterized is `(0, 50, 600, 495)`: its left edge 0 is
not bounded by the right column's extent `[300, 600]`, and it reaches
450pt above the caption top, not ≈250–300pt — refuting the claim at this
input. -/
theorem claim_C6_counterexample :
    ¬ ((300:ℚ) ≤ (captionImageRect 600 500).rx0 ∧ (captionImageRect 600 500).rx1 ≤ 600 ∧
        500 - (captionImageRect 600 500).ry0 ≤ 300) := by
  rintro ⟨h1, -, -⟩
  norm_num [captionImageRect] at h1

/-- C6 (amended): the rasterized rectangle ignores the caption's column
entirely — it spans the full page width (`x` from 0 to the page width) —
and it runs from 5pt above the caption's top edge up to 450pt above it
(clamped at the page top), not ≈250–300pt. -/
theorem claim_C6_theorem (w y : ℚ) :
    (captionImageRect w y).rx0 = 0 ∧ (captionImageRect w y).rx1 = w ∧
    (captionImageRect w y).ry1 = y - 5 ∧
    (450 ≤ y → y - (captionImageRect w y).ry0 = 450) := by
  refine ⟨rfl, rfl, rfl, fun h => ?_⟩
  show y - max 0 (y - 450) = 450
  rw [max_eq_right (by linarith)]
  ring

/-- C6 witness: the amended theorem at the counterexample's page. -/
theorem claim_C6_witness :
    (450:ℚ) ≤ 500 ∧ 500 - (captionImageRect 600 500).ry0 = 450 :=
  ⟨by decide, (claim_C6_theorem 600 500).2.2.2 (by decide)⟩

/-! ## Claim C5: rasterization failure handling in `extract_figures` -/

/-- C5: the code evaluated at the failing inputs.  A failure of the
*second* `get_pixmap` call (the one inside `try/except`, lines 106–115)
is caught: the run continues and merely skips the counter.  But a failure
of the *first* `get_pixmap` call (line 79, outside any `try`) is an
uncaught exception that aborts the whole run — the next caption is never
processed — contradicting the claim that no per-caption rasterization
exception ever aborts the document-level run. -/
theorem claim_C5_theorem :
    extract_figures [⟨"Fig. 6.4 Pendulum", false, false⟩] = .error "get_pixmap raised" ∧
    extract_figures [⟨"Fig. 6.4 Pendulum", true, false⟩] = .ok 0 ∧
    extract_figures [⟨"Fig. 6.4 P", false, true⟩, ⟨"Fig. 6.5 Q", true, true⟩] =
      .error "get_pixmap raised" ∧
    extract_figures [⟨"Fig. 6.4 P", true, true⟩, ⟨"Fig. 6.5 Q", true, true⟩] = .ok 2 :=
  ⟨rfl, rfl, rfl, rfl⟩
